import Mathlib

/-!
Verification of the storaget repository (an embedded, single-process object
store: per-record persistence cells, an id-indexed collection, and a shared
concurrent record handle) against its natural-language specification.

The Rust sources are shallowly embedded:
* `Error` mirrors the error enum in src/src/prelude.rs (lines 26-40) and
  `PackError` the one in src/src/lib.rs (lines 49-69).
* The external serialization codec (serde_yaml in the source) is an abstract
  pair of encode and decode functions (`Codec`); the spec treats the codec as
  an out-of-scope collaborator, so theorems that need decode-after-encode use
  the codec round-trip as an explicit hypothesis.
* The filesystem fragment the core touches is a map from path to whole-file
  contents plus the set of paths where file creation fails (`FS`).
* Rust panics (every `.unwrap()` and `.expect(..)` in the source) are modelled
  by the `Outcome.crash` constructor: the operation aborts the process and
  returns nothing to the caller.
-/

deriving instance DecidableEq for Except

namespace Storaget

/-- The storage error enum, from src/src/prelude.rs lines 26-40.  Note the
variant list: there is no variant for an already-taken id. -/
inductive Error where
  | InternalError (msg : String)
  | ObjectNotFound
  | PathNotFound
  | SerializeError (msg : String)
  | DeserializeError (msg : String)
  | IOError (msg : String)
deriving DecidableEq

/-- The Pack error enum, from src/src/lib.rs lines 49-69. -/
inductive PackError where
  | InternalError (msg : String)
  | SerializeError (msg : String)
  | DeserializeError (msg : String)
  | IOError (msg : String)
  | ObjectNotFound
  | PathNotFound
deriving DecidableEq

/-- The external serialization codec (serde_yaml in the source, wrapped by
serialize_object and deserialize_object, src/src/file.rs lines 121-154).
Both directions can fail, which the source maps to SerializeError and
DeserializeError respectively.  `β` is the type of file contents (the byte
representation). -/
structure Codec (α β : Type) where
  serialize : α → Option β
  deserialize : β → Option α

/-- The filesystem fragment the core touches: whole-file contents per path,
plus the set of paths at which File::create fails (an unwritable path, the
failure mode the spec's update-atomicity test calls for).  Writes prepend and
reads take the first match, so a write fully overwrites the previous
contents. -/
structure FS (β : Type) where
  files : List (String × β)
  badPaths : List String
deriving DecidableEq

/-- Whole-file read: contents of the first (most recent) entry for the path. -/
def FS.read (fs : FS β) (p : String) : Option β :=
  (fs.files.find? (fun pr => decide (pr.1 = p))).map (fun pr => pr.2)

/-- The backing-file path of a record: format!("{}/{}.yml", path, id) in
src/src/file.rs line 165. -/
def objectFilePath (dir : String) (id : String) : String :=
  dir ++ "/" ++ id ++ ".yml"

/-- save_storage_object, src/src/file.rs lines 160-168: create (truncate) the
file named after the record's id under the collection directory and write the
serialized representation of the record into it.  File::create failing is an
IOError; the serializer failing is a SerializeError.  (The source calls
File::create before serializing, so a serialize failure would additionally
leave a truncated file behind; no claim depends on that corner and the write
is modelled as one whole-file update, matching the spec's write_whole_file
primitive.) -/
def save_storage_object (c : Codec α β) (getId : α → String) (o : α)
    (dir : String) (fs : FS β) : Except Error (FS β) :=
  let p := objectFilePath dir (getId o)
  if p ∈ fs.badPaths then
    .error (.IOError "cannot create file")
  else
    match c.serialize o with
    | none => .error (.SerializeError "serialize error")
    | some b => .ok ⟨(p, b) :: fs.files, fs.badPaths⟩

/-- Pack, src/src/lib.rs lines 129-135: one record value plus its backing
path. -/
structure Pack (α : Type) where
  data : α
  path : String
deriving DecidableEq

/-- Pack::save, src/src/lib.rs lines 175-177.  The body is literally
`Ok(())`: it reports success and writes nothing, leaving the filesystem
untouched. -/
def Pack.saveFS (_p : Pack α) (fs : FS β) : Except PackError Unit × FS β :=
  (.ok (), fs)

/-- The body of Pack::update, src/src/lib.rs lines 178-199, with the outcome
of the `self.save()` call abstracted as the parameter `sr` (in the running
system that outcome is decided by the filesystem): back up the current value,
apply `f` in place, then on save success return `f`'s result and keep the
mutated value, on save failure restore the backup and return the error.
The closure `f` mutates the value and returns a result, modelled as a pair.
(In the source the error branch returns the error at the closure's result
type, forcing the two to coincide; the sum type keeps the two exits apart.) -/
def Pack.updateWith (p : Pack α) (sr : Except PackError Unit)
    (f : α → α × ρ) : (ρ ⊕ PackError) × Pack α :=
  let backup := p.data
  let m := f p.data
  match sr with
  | .ok _ => (.inl m.2, ⟨m.1, p.path⟩)
  | .error e => (.inr e, ⟨backup, p.path⟩)

/-- Pack::update composed with the actual Pack::save, threading the
filesystem through the save call. -/
def Pack.updateFS (p : Pack α) (f : α → α × ρ) (fs : FS β) :
    (ρ ⊕ PackError) × Pack α × FS β :=
  let m := f p.data
  let s := Pack.saveFS (⟨m.1, p.path⟩ : Pack α) fs
  match s.1 with
  | .ok _ => (.inl m.2, ⟨m.1, p.path⟩, s.2)
  | .error e => (.inr e, ⟨p.data, p.path⟩, s.2)

/-- Result of an operation that may also terminate the process: `crash` models
a Rust panic coming from `.unwrap()` or `.expect(..)` in the source — the
operation returns nothing to the caller. -/
inductive Outcome (α : Type) where
  | ok (a : α)
  | err (e : Error)
  | crash
deriving DecidableEq

/-- The Unicode White_Space set, the character class used by Rust's
str::trim (called in src/src/lib.rs lines 216 and 232). -/
def rustIsWhitespace (ch : Char) : Bool :=
  decide (ch ∈ ['\t', '\n', '\u000B', '\u000C', '\r', ' ', '\u0085', '\u00A0',
    '\u1680', '\u2000', '\u2001', '\u2002', '\u2003', '\u2004', '\u2005',
    '\u2006', '\u2007', '\u2008', '\u2009', '\u200A', '\u2028', '\u2029',
    '\u202F', '\u205F', '\u3000'])

/-- Remove trailing whitespace from a character list. -/
def trimStop (l : List Char) : List Char :=
  (l.reverse.dropWhile rustIsWhitespace).reverse

/-- Rust str::trim: remove leading and trailing White_Space characters. -/
def rustTrim (s : String) : String :=
  ⟨trimStop (s.data.dropWhile rustIsWhitespace)⟩

/-- Modelled from the spec: the Storage struct itself is not in src — only
its impl blocks are (src/src/lib.rs lines 202-252) — so its shape is taken
from spec §3 (Collection: ordered entries, id-to-position lookup, directory
path) and from the field accesses in those impl blocks (`self.data` is the
locked ordered record list, `self.lookup_table` the locked id-to-index map,
`self.path` the directory).  Lock acquisition is modelled as direct access;
the interleaving of lock acquisitions inside DataObject::update has its own
explicit trace semantics below. -/
structure Storage (α : Type) where
  data : List α
  lookup_table : List (String × Nat)
  path : String
deriving DecidableEq

/-- Modelled from the spec: Storage::new is called by load_storage
(src/src/file.rs line 53) but not defined in src; spec §4.2 construction
starts from an empty collection over the directory path. -/
def Storage.new (path : String) : Storage α :=
  ⟨[], [], path⟩

/-- DataObject, src/src/lib.rs lines 294-308: a shared handle to one record
plus the collection's directory path.  The Arc-Mutex sharing is modelled
explicitly in the trace semantics below; for the sequential operations the
handle carries the record value it wraps. -/
structure DataObject (α : Type) where
  data : α
  path : String
deriving DecidableEq

/-- Storage::get_by_id, src/src/lib.rs lines 215-224: trim the queried id,
look it up in the lookup table, and clone the record at the stored position
into a DataObject; a missing id is ObjectNotFound.  The position lookup into
the data vector is unwrapped in the source, so an out-of-range position
panics (`crash`). -/
def Storage.get_by_id (st : Storage α) (id : String) :
    Outcome (DataObject α) :=
  let i := rustTrim id
  match st.lookup_table.find? (fun pr => decide (pr.1 = i)) with
  | some pr =>
    match st.data[pr.2]? with
    | some v => .ok ⟨v, st.path⟩
    | none => .crash
  | none => .err .ObjectNotFound

/-- Storage::get_by_ids, src/src/lib.rs lines 225-236: for each queried id in
order, trim it and pair the trimmed id with the result of get_by_id on it. -/
def Storage.get_by_ids (st : Storage α) (ids : List String) :
    List (String × Outcome (DataObject α)) :=
  ids.map (fun id => (rustTrim id, st.get_by_id (rustTrim id)))

/-- Modelled from the spec: Storage::add_to_storage is called throughout the
repository's tests (src/src/lib.rs lines 441, 457-459, ...) and by
load_storage (src/src/file.rs line 55) but its body is not in src.  Spec §4.2
insert: reject a duplicate id without side effects; otherwise compute the
backing file path from the id, persist the value (save_storage_object, which
is in src), and append the record plus a lookup entry, preserving insertion
order.  The spec names the duplicate-id error kind IDTaken, but the Error
enum in src/src/prelude.rs has no such variant, so the model returns
InternalError (the spec §7 catch-all); the repository's own tests only check
`is_ok() == false` for the duplicate case (src/src/lib.rs lines 482-483). -/
def Storage.add_to_storage (c : Codec α β) (getId : α → String)
    (st : Storage α) (fs : FS β) (v : α) :
    Except Error (Storage α × FS β) :=
  if (st.lookup_table.find? (fun pr => decide (pr.1 = getId v))).isSome then
    .error (.InternalError "id already taken")
  else
    match save_storage_object c getId v st.path fs with
    | .error e => .error e
    | .ok fs2 =>
      .ok (⟨st.data ++ [v], st.lookup_table ++ [(getId v, st.data.length)],
            st.path⟩, fs2)

/-- DataObject::update, src/src/lib.rs lines 321-328: lock and apply `f` to
the shared value, then lock again and save it with save_storage_object,
unwrapping the result — a persist failure panics (`crash`); there is no
backup and no rollback. -/
def DataObject.update (c : Codec α β) (getId : α → String)
    (d : DataObject α) (f : α → α × ρ) (fs : FS β) :
    Outcome (ρ × DataObject α × FS β) :=
  let m := f d.data
  match save_storage_object c getId m.1 d.path fs with
  | .ok fs2 => .ok (m.2, ⟨m.1, d.path⟩, fs2)
  | .error _ => .crash

/-- manage_path, src/src/file.rs lines 60-70: create the collection directory
if it does not exist; a creation failure is InternalError.  `dirs` is the set
of existing directories and `createOk` whether fs::create_dir_all succeeds. -/
def manage_path (path : String) (createOk : Bool) (dirs : List String) :
    Except Error (List String) :=
  if path ∈ dirs then .ok dirs
  else if createOk then .ok (path :: dirs)
  else .error (.InternalError "create dir failed")

/-- load, src/src/file.rs lines 81-105: read every directory entry in listing
order and deserialize it.  Every fallible step in the body is unwrapped
(read_dir via expect, File::open, read_to_string and deserialize_object via
unwrap), so in particular a file whose contents fail to decode panics
(`crash`) instead of surfacing the DeserializeError that deserialize_object
produced.  The directory is given as the list of (file name, contents) pairs
that read_dir plus read_to_string would produce. -/
def load (c : Codec α β) (dir : List (String × β)) : Outcome (List α) :=
  match dir with
  | [] => .ok []
  | f :: rest =>
    match c.deserialize f.2 with
    | none => .crash
    | some t =>
      match load c rest with
      | .ok ts => .ok (t :: ts)
      | .err e => .err e
      | .crash => .crash

/-- The loop of load_storage, src/src/file.rs lines 54-56: add every loaded
item to the fresh storage, propagating the first error. -/
def addAll (c : Codec α β) (getId : α → String) (items : List α)
    (st : Storage α) (fs : FS β) : Except Error (Storage α × FS β) :=
  match items with
  | [] => .ok (st, fs)
  | v :: rest =>
    match Storage.add_to_storage c getId st fs v with
    | .error e => .error e
    | .ok p => addAll c getId rest p.1 p.2

/-- load_storage, src/src/file.rs lines 48-58: ensure the directory exists
(manage_path), start a new Storage over the path, and add every item that
load decoded, propagating errors with the question mark operator.  A panic
inside load aborts the whole construction (`crash`). -/
def load_storage (c : Codec α β) (getId : α → String) (path : String)
    (createOk : Bool) (dirs : List String) (dirFiles : List (String × β))
    (fs : FS β) : Outcome (Storage α × FS β × List String) :=
  match manage_path path createOk dirs with
  | .error e => .err e
  | .ok dirs2 =>
    match load c dirFiles with
    | .crash => .crash
    | .err e => .err e
    | .ok items =>
      match addAll c getId items (Storage.new path) fs with
      | .error e => .err e
      | .ok p => .ok (p.1, p.2, dirs2)

/-- A caller-side sequence of add_to_storage calls, continuing with the
unchanged storage when one insert fails — exactly how the repository's tests
drive the collection (src/src/lib.rs lines 479-483 keep using the storage
after the failed duplicate inserts). -/
def buildStorage (c : Codec α β) (getId : α → String) (vs : List α)
    (st : Storage α) (fs : FS β) : Storage α × FS β :=
  match vs with
  | [] => (st, fs)
  | v :: rest =>
    match Storage.add_to_storage c getId st fs v with
    | .ok p => buildStorage c getId rest p.1 p.2
    | .error _ => buildStorage c getId rest st fs

/-!
Trace semantics for concurrent updates through shared DataObject handles.

DataObject::update (src/src/lib.rs lines 321-328) takes the per-record lock
twice: once for the closure application (line 325) and once, after releasing
it, for the persist (line 326).  Each of the two statements is therefore
atomic with respect to the other threads, but the pair is not.  An execution
of K threads each running N updates on the same shared record is a trace of
atomic events: `upd t k` is thread t applying its k-th mutation closure under
the lock, `per t k` is the same call's persist step, which re-acquires the
lock and writes the then-current shared value.  Validity of a trace only
constrains each thread's own events to its program order — exactly what the
two separate lock acquisitions enforce.  Persists are modelled as succeeding
(`enc` is the successful encoding); the persist-failure path panics and is
covered separately.
-/

/-- One atomic step of some thread's DataObject::update call: the locked
closure application or the locked persist. -/
inductive Ev where
  | upd (t k : Nat)
  | per (t k : Nat)
deriving DecidableEq

/-- The thread an event belongs to. -/
def Ev.thread : Ev → Nat
  | .upd t _ => t
  | .per t _ => t

/-- The program of one thread: N update calls, each one closure application
followed by its persist, in order. -/
def progOf (t : Nat) : Nat → List Ev
  | 0 => []
  | Nat.succ m => progOf t m ++ [Ev.upd t m, Ev.per t m]

/-- Shared state seen by all handles of one record: the in-memory value
behind the mutex and the contents of the backing file. -/
structure CState (α β : Type) where
  mem : α
  file : Option β
deriving DecidableEq

/-- Run a trace: a closure application replaces the shared value by
`step t k` of it; a persist overwrites the file with the encoding of the
current shared value (save_storage_object reads the value under the lock at
persist time, src/src/lib.rs line 326). -/
def runTrace (step : Nat → Nat → α → α) (enc : α → β) :
    List Ev → CState α β → CState α β
  | [], s => s
  | Ev.upd t k :: rest, s => runTrace step enc rest ⟨step t k s.mem, s.file⟩
  | Ev.per _ _ :: rest, s => runTrace step enc rest ⟨s.mem, some (enc s.mem)⟩

/-- A trace is an execution of K threads times N updates when every event
belongs to one of the K threads and each thread's subsequence of events is
exactly its program. -/
def validTrace (K N : Nat) (tr : List Ev) : Bool :=
  tr.all (fun e => decide (e.thread < K)) &&
    (List.range K).all
      (fun t => decide (tr.filter (fun e => decide (e.thread = t)) = progOf t N))

/-- Whether an event is a mutation step. -/
def Ev.isUpd : Ev → Bool
  | .upd _ _ => true
  | .per _ _ => false

/-- Apply the mutation steps occurring in an event list, in order,
ignoring the persists (which do not change the in-memory value). -/
def applyEvs (step : Nat → Nat → α → α) : List Ev → α → α
  | [], a => a
  | Ev.upd t k :: rest, a => applyEvs step rest (step t k a)
  | Ev.per _ _ :: rest, a => applyEvs step rest a

/-- The mutation events of one thread's N updates. -/
def rowEvents (t : Nat) : Nat → List Ev
  | 0 => []
  | Nat.succ m => rowEvents t m ++ [Ev.upd t m]

/-- All K times N mutation events. -/
def allUpdEvents : Nat → Nat → List Ev
  | 0, _ => []
  | Nat.succ tm, N => allUpdEvents tm N ++ rowEvents tm N

/-- Formalization of the claim's ordering requirement, following the spec's
words (§5: whichever thread acquires the per-record lock first completes its
full read-modify-persist cycle before the next begins): the trace must be a
sequence of complete cycles, each mutation immediately followed by its own
persist.  To be compared with what `validTrace` — the order the code's lock
structure actually enforces — permits. -/
def specSerialCycles : List Ev → Bool
  | [] => true
  | Ev.upd t k :: Ev.per t2 k2 :: rest =>
    decide (t = t2) && decide (k = k2) && specSerialCycles rest
  | _ => false

/-- The spec's IDTaken error kind (§7), as a predicate on the code's error
type: the Error enum in src/src/prelude.rs lines 26-40 has no such variant,
so no Error value is of that kind — the match is exhaustive over the six
variants the code declares. -/
def specIsIDTaken : Error → Bool
  | .InternalError _ => false
  | .ObjectNotFound => false
  | .PathNotFound => false
  | .SerializeError _ => false
  | .DeserializeError _ => false
  | .IOError _ => false

/-!
Concrete fixtures used by witnesses and counterexamples.  `TestUser` plays
the role of the repository's test record type (src/src/lib.rs lines 355-360:
id, name, age — name omitted as nothing here depends on it); the identity
codec stores the record itself as the file contents, which is a legitimate
instance of the abstract external codec and makes the round-trip evaluable.
-/

structure TestUser where
  id : String
  age : Nat
deriving DecidableEq

def userGetId (u : TestUser) : String := u.id

def userCodec : Codec TestUser TestUser :=
  ⟨fun u => some u, fun u => some u⟩

/-- A codec whose file-contents type is optional, so that `none` is a file
that fails to decode. -/
def optCodec : Codec TestUser (Option TestUser) :=
  ⟨fun u => some (some u), fun b => b⟩

def fsEmpty : FS TestUser := ⟨[], []⟩

def u1 : TestUser := ⟨"1", 27⟩

def u1b : TestUser := ⟨"1", 99⟩

def u2 : TestUser := ⟨"2", 31⟩

def ux : TestUser := ⟨"x", 27⟩

/-- The interleaved two-thread execution used for C8: thread 1's mutation
runs between thread 0's mutation and thread 0's persist. -/
def c8Trace : List Ev :=
  [Ev.upd 0 0, Ev.upd 1 0, Ev.per 0 0, Ev.per 1 0]

/-- A concrete family of update closures for the C8 witness. -/
def c8Step (t _k n : Nat) : Nat := n + t + 1

/-- A mutation closure: set the age to 28 and return unit, like the
name-and-age updates in src/src/bin/demo.rs lines 86-94. -/
def setAge28 (u : TestUser) : TestUser × Unit := (⟨u.id, 28⟩, ())

/-- A Pack cell whose backing file currently holds the encoding of its
value, so the record-cell invariant holds before the update. -/
def c1Pack : Pack TestUser := ⟨u1, "data/packfile"⟩

def c1FS : FS TestUser := ⟨[("data/packfile", u1)], []⟩

/-- A directory listing with a single file whose contents fail to decode. -/
def c5Dir : List (String × Option TestUser) := [("bad.yml", none)]

def c6Obj : DataObject TestUser := ⟨u1, "data/users"⟩

/-- A filesystem on which persisting record "1" of the data/users collection
fails: its backing path is unwritable. -/
def c6FS : FS TestUser :=
  ⟨[(objectFilePath "data/users" "1", u1)], [objectFilePath "data/users" "1"]⟩

/-- A one-record collection, built by inserting u1. -/
def c3Built : Storage TestUser × FS TestUser :=
  buildStorage userCodec userGetId [u1] (Storage.new "data/test10") fsEmpty

/-- Pair each element of an id list with its position, starting at `n`. -/
def withIdxFrom (n : Nat) : List String → List (String × Nat)
  | [] => []
  | x :: rest => (x, n) :: withIdxFrom (n + 1) rest

/-- The collection invariant of spec §3: the lookup table is exactly the id
of each data entry paired with the entry's position. -/
def LookupInv (getId : α → String) (st : Storage α) : Prop :=
  st.lookup_table = withIdxFrom 0 (st.data.map getId)

/-!  Theorems.  First the helper lemmas about trimming. -/

theorem dropWhile_twice (p : γ → Bool) (l : List γ) :
    (l.dropWhile p).dropWhile p = l.dropWhile p := by
  induction l with
  | nil => rfl
  | cons a t ih =>
    cases hp : p a with
    | true => simp [List.dropWhile_cons, hp, ih]
    | false => simp [List.dropWhile_cons, hp]

theorem dropWhile_eq_self_of_append (p : γ → Bool) (l2 tail l : List γ)
    (hpre : l2 ++ tail = l) (hl : l.dropWhile p = l) :
    l2.dropWhile p = l2 := by
  cases l2 with
  | nil => rfl
  | cons c t =>
    subst hpre
    have h0 : 0 < ((c :: t) ++ tail).length := by simp
    have hnp := List.dropWhile_eq_self_iff.mp hl h0
    have hc : p c = false := by simpa using hnp
    rw [List.dropWhile_cons, hc]
    simp

theorem trimStop_append (l : List Char) :
    trimStop l ++ (l.reverse.takeWhile rustIsWhitespace).reverse = l := by
  have h := List.takeWhile_append_dropWhile (p := rustIsWhitespace)
    (l := l.reverse)
  have h2 := congrArg List.reverse h
  rw [List.reverse_append, List.reverse_reverse] at h2
  exact h2

theorem trimStop_idem (l : List Char) : trimStop (trimStop l) = trimStop l := by
  unfold trimStop
  rw [List.reverse_reverse, dropWhile_twice]

theorem dropWhile_trimStop (l : List Char)
    (hl : l.dropWhile rustIsWhitespace = l) :
    (trimStop l).dropWhile rustIsWhitespace = trimStop l :=
  dropWhile_eq_self_of_append _ (trimStop l) _ l (trimStop_append l) hl

theorem rustTrim_idem (s : String) : rustTrim (rustTrim s) = rustTrim s := by
  show (⟨trimStop ((trimStop (s.data.dropWhile rustIsWhitespace)).dropWhile
    rustIsWhitespace)⟩ : String) = ⟨trimStop (s.data.dropWhile rustIsWhitespace)⟩
  congr 1
  rw [dropWhile_trimStop _ (dropWhile_twice _ _), trimStop_idem]

theorem get_by_id_trim_eq (st : Storage α) (s : String) :
    st.get_by_id (rustTrim s) = st.get_by_id s := by
  unfold Storage.get_by_id
  rw [rustTrim_idem]

/-- C9: for every id string s, get_by_id returns the same result on s as on
s with surrounding whitespace removed — lookup never distinguishes two query
strings that differ only in surrounding whitespace, so a record stored under
id "x" is found when queried with " x ". -/
theorem C9_get_by_id_trim_insensitive (st : Storage α) (s : String) :
    st.get_by_id s = st.get_by_id (rustTrim s) :=
  (get_by_id_trim_eq st s).symm

/-- C10: get_by_ids returns one pair per input id, in input order (so the
output length equals the input length and duplicates each produce their own
entry), pairing the trimmed i-th id with the result of get_by_id on that
id. -/
theorem C10_get_by_ids_shape (st : Storage α) (ids : List String) :
    st.get_by_ids ids = ids.map (fun s => (rustTrim s, st.get_by_id s)) ∧
      (st.get_by_ids ids).length = ids.length := by
  constructor
  · unfold Storage.get_by_ids
    exact List.map_congr_left (fun a _ => by rw [get_by_id_trim_eq])
  · unfold Storage.get_by_ids
    rw [List.length_map]

/-- C2: Pack::update backs up the current value, applies the closure in
place and attempts the persist step; when the persist step reports success
the call returns the closure's result with the mutated value in place, and
when it reports failure the value is rolled back to the pre-call value and
the persist error is returned. -/
theorem C2_update_atomicity (p : Pack α) (f : α → α × ρ) :
    (Pack.updateWith p (.ok ()) f =
      (.inl (f p.data).2, ⟨(f p.data).1, p.path⟩)) ∧
    (∀ e : PackError, Pack.updateWith p (.error e) f = (.inr e, p)) :=
  ⟨rfl, fun _ => rfl⟩

/-- C7: a persist through save_storage_object writes exactly one file, whose
path is computed deterministically from the record's id (the collection
directory, the id, and the fixed .yml extension), and fully overwrites that
file's contents with the codec's serialized representation of that one
record: reading the written path afterwards yields the serialization, and
every other path is unchanged. -/
theorem C7_file_layout (c : Codec α β) (getId : α → String) (o : α)
    (dir : String) (fs : FS β) (b : β)
    (henc : c.serialize o = some b)
    (hw : objectFilePath dir (getId o) ∉ fs.badPaths) :
    save_storage_object c getId o dir fs =
      .ok ⟨(objectFilePath dir (getId o), b) :: fs.files, fs.badPaths⟩ ∧
    FS.read ⟨(objectFilePath dir (getId o), b) :: fs.files, fs.badPaths⟩
      (objectFilePath dir (getId o)) = some b ∧
    ∀ q, q ≠ objectFilePath dir (getId o) →
      FS.read ⟨(objectFilePath dir (getId o), b) :: fs.files, fs.badPaths⟩ q =
        fs.read q := by
  refine ⟨?_, ?_, ?_⟩
  · simp only [save_storage_object]
    rw [if_neg hw, henc]
  · unfold FS.read
    rw [List.find?_cons_of_pos _ (by simp)]
    rfl
  · intro q hq
    unfold FS.read
    rw [List.find?_cons_of_neg _ (by simpa using fun h => hq h.symm)]

/-- Witness for C7 at a concrete record, filesystem and second path. -/
theorem C7_file_layout_witness :
    userCodec.serialize u1 = some u1 ∧
    objectFilePath "data/test10" (userGetId u1) ∉ fsEmpty.badPaths ∧
    (save_storage_object userCodec userGetId u1 "data/test10" fsEmpty =
      .ok ⟨[(objectFilePath "data/test10" (userGetId u1), u1)], []⟩ ∧
    FS.read ⟨[(objectFilePath "data/test10" (userGetId u1), u1)], []⟩
      (objectFilePath "data/test10" (userGetId u1)) = some u1 ∧
    FS.read ⟨[(objectFilePath "data/test10" (userGetId u1), u1)], []⟩
      "other" = fsEmpty.read "other") := by
  have h := C7_file_layout userCodec userGetId u1 "data/test10" fsEmpty u1
    (by decide) (by decide)
  exact ⟨by decide, by decide, h.1, h.2.1, h.2.2 "other" (by decide)⟩

/-- C1: the record-cell persistence invariant is broken by Pack::save, whose
body is a stub returning Ok(()) without writing (src/src/lib.rs 175-177),
even though Pack's own documentation says it is responsible for syncing the
value to the filesystem: after an update that bumps the stored age to 28,
the update reports success and the in-memory value is 28, yet the
filesystem is completely unchanged and the bytes at the cell's backing path
still decode to the old value u1 (age 27) — they do not decode to a value
equal to the in-memory one. -/
theorem C1_pack_save_writes_nothing :
    Pack.updateFS c1Pack setAge28 c1FS =
      (Sum.inl (), ⟨⟨"1", 28⟩, "data/packfile"⟩, c1FS) ∧
    (c1FS.read "data/packfile").bind userCodec.deserialize = some u1 ∧
    some u1 ≠ some (⟨"1", 28⟩ : TestUser) := by decide

/-- C5: a collection constructed over a directory containing one file whose
contents fail to decode does not return DeserializeError to the caller —
load unwraps the deserialize result and the whole construction panics
(src/src/file.rs line 102), modelled as the crash outcome. -/
theorem C5_load_panics :
    load optCodec c5Dir = Outcome.crash ∧
    load_storage optCodec userGetId "data/test" true [] c5Dir ⟨[], []⟩ =
      Outcome.crash := by decide

/-- C6: DataObject::update on a record whose backing path is unwritable
does not return the persist error and does not roll back — it unwraps the
save_storage_object result and panics (src/src/lib.rs line 326), modelled
as the crash outcome: nothing is returned to the caller at all. -/
theorem C6_update_panics :
    DataObject.update userCodec userGetId c6Obj setAge28 c6FS =
      Outcome.crash := by decide

/-- C3 counterexample: inserting a second record with the already-present id
"1" into a one-record collection fails, but not with an IDTaken error kind —
the code's error type has no such kind (specIsIDTaken is false on every
variant the enum declares), and the duplicate insert fails with
InternalError. -/
theorem C3_counterexample :
    Storage.add_to_storage userCodec userGetId c3Built.1 c3Built.2 u1b =
      .error (.InternalError "id already taken") ∧
    specIsIDTaken (.InternalError "id already taken") = false := by decide

/-- C3 (amended): an insert whose value's id is already present fails with
an error — InternalError, since the code's error taxonomy has no IDTaken
kind — and, the operation returning only the error, has no side effects on
the collection or the filesystem, so the entry count is unchanged; an insert
with a fresh id (when serialization and the file write succeed) persists the
value to the file named after the id and appends exactly one new entry plus
one lookup entry. -/
theorem C3_insert_uniqueness (c : Codec α β) (getId : α → String)
    (st : Storage α) (fs : FS β) (v : α) :
    if (st.lookup_table.find? (fun pr => decide (pr.1 = getId v))).isSome then
      Storage.add_to_storage c getId st fs v =
        .error (.InternalError "id already taken")
    else
      if objectFilePath st.path (getId v) ∈ fs.badPaths then
        Storage.add_to_storage c getId st fs v =
          .error (.IOError "cannot create file")
      else
        match c.serialize v with
        | none => Storage.add_to_storage c getId st fs v =
            .error (.SerializeError "serialize error")
        | some b =>
          Storage.add_to_storage c getId st fs v =
            .ok (⟨st.data ++ [v],
                  st.lookup_table ++ [(getId v, st.data.length)], st.path⟩,
                 ⟨(objectFilePath st.path (getId v), b) :: fs.files,
                  fs.badPaths⟩) := by
  by_cases h1 :
      (st.lookup_table.find? (fun pr => decide (pr.1 = getId v))).isSome
  · rw [if_pos h1]
    unfold Storage.add_to_storage
    rw [if_pos h1]
  · rw [if_neg h1]
    by_cases h2 : objectFilePath st.path (getId v) ∈ fs.badPaths
    · rw [if_pos h2]
      simp [Storage.add_to_storage, save_storage_object, h1, h2]
    · rw [if_neg h2]
      cases hs : c.serialize v with
      | none =>
        simp [Storage.add_to_storage, save_storage_object, h1, h2, hs]
      | some b =>
        simp [Storage.add_to_storage, save_storage_object, h1, h2, hs]

theorem withIdxFrom_append (l : List String) (x : String) :
    ∀ n, withIdxFrom n (l ++ [x]) = withIdxFrom n l ++ [(x, n + l.length)] := by
  induction l with
  | nil => intro n; simp [withIdxFrom]
  | cons a t ih =>
    intro n
    show (a, n) :: withIdxFrom (n + 1) (t ++ [x]) =
      ((a, n) :: withIdxFrom (n + 1) t) ++ [(x, n + (t.length + 1))]
    rw [ih (n + 1), List.cons_append,
      show n + 1 + t.length = n + (t.length + 1) from by omega]

theorem find_withIdxFrom_some (getId : α → String) (data : List α)
    (n : Nat) (q : String) (pr : String × Nat)
    (h : (withIdxFrom n (data.map getId)).find?
        (fun x => decide (x.1 = q)) = some pr) :
    pr.1 = q ∧ ∃ j, pr.2 = n + j ∧ ∃ v, data[j]? = some v ∧ getId v = q := by
  induction data generalizing n with
  | nil => simp [withIdxFrom] at h
  | cons v rest ih =>
    rw [List.map_cons] at h
    rw [show withIdxFrom n (getId v :: rest.map getId) =
      (getId v, n) :: withIdxFrom (n + 1) (rest.map getId) from rfl] at h
    cases hq : decide (getId v = q) with
    | true =>
      simp only [List.find?_cons, hq] at h
      obtain rfl := Option.some.inj h
      exact ⟨of_decide_eq_true hq, 0, by omega, v, by simp,
        of_decide_eq_true hq⟩
    | false =>
      simp only [List.find?_cons, hq] at h
      obtain ⟨h1, j, hj, v2, hv2, hgv⟩ := ih (n + 1) h
      exact ⟨h1, j + 1, by omega, v2, by simpa using hv2, hgv⟩

theorem find_withIdxFrom_none (getId : α → String) (data : List α)
    (n : Nat) (q : String)
    (h : (withIdxFrom n (data.map getId)).find?
        (fun x => decide (x.1 = q)) = none) :
    q ∉ data.map getId := by
  induction data generalizing n with
  | nil => simp
  | cons v rest ih =>
    rw [List.map_cons] at h
    rw [show withIdxFrom n (getId v :: rest.map getId) =
      (getId v, n) :: withIdxFrom (n + 1) (rest.map getId) from rfl] at h
    cases hq : decide (getId v = q) with
    | true =>
      simp only [List.find?_cons, hq] at h
      simp at h
    | false =>
      simp only [List.find?_cons, hq] at h
      have hne : getId v ≠ q := of_decide_eq_false hq
      simp only [List.map_cons, List.mem_cons]
      rintro (h' | h')
      · exact hne h'.symm
      · exact ih (n + 1) h h'

/-- Under the collection invariant, get_by_id finds exactly the stored
record whose id equals the trimmed query, and reports ObjectNotFound exactly
when no stored record has that id; it never panics. -/
theorem get_by_id_spec (getId : α → String) (st : Storage α)
    (hInv : LookupInv getId st) (q : String) :
    match st.get_by_id q with
    | .ok d => getId d.data = rustTrim q ∧ d.data ∈ st.data ∧
        d.path = st.path
    | .err e => e = .ObjectNotFound ∧ rustTrim q ∉ st.data.map getId
    | .crash => False := by
  unfold Storage.get_by_id
  rw [hInv]
  cases hf : (withIdxFrom 0 (st.data.map getId)).find?
      (fun x => decide (x.1 = rustTrim q)) with
  | none =>
    simp only [hf]
    exact ⟨by trivial, find_withIdxFrom_none getId st.data 0 (rustTrim q) hf⟩
  | some pr =>
    obtain ⟨h1, j, hj, v, hv, hgv⟩ :=
      find_withIdxFrom_some getId st.data 0 (rustTrim q) pr hf
    have hj2 : pr.2 = j := by omega
    simp only [hf, hj2, hv]
    exact ⟨hgv, List.getElem?_mem hv, by trivial⟩

theorem add_preserves_inv (c : Codec α β) (getId : α → String)
    (st : Storage α) (fs : FS β) (v : α) (st2 : Storage α) (fs2 : FS β)
    (hInv : LookupInv getId st)
    (h : Storage.add_to_storage c getId st fs v = .ok (st2, fs2)) :
    LookupInv getId st2 ∧ st2.path = st.path ∧
      st2.data.map getId = st.data.map getId ++ [getId v] := by
  unfold Storage.add_to_storage at h
  by_cases h1 :
      (st.lookup_table.find? (fun pr => decide (pr.1 = getId v))).isSome
  · rw [if_pos h1] at h; simp at h
  · rw [if_neg h1] at h
    cases hs : save_storage_object c getId v st.path fs with
    | error e => rw [hs] at h; simp at h
    | ok fs3 =>
      rw [hs] at h
      have h4 := Except.ok.inj h
      have h2 : st2 = ⟨st.data ++ [v],
          st.lookup_table ++ [(getId v, st.data.length)], st.path⟩ :=
        (congrArg Prod.fst h4).symm
      subst h2
      refine ⟨?_, rfl, by simp⟩
      unfold LookupInv
      rw [List.map_append, List.map_cons, List.map_nil,
        withIdxFrom_append, hInv]
      simp

theorem buildStorage_inv (c : Codec α β) (getId : α → String)
    (vs : List α) :
    ∀ (st : Storage α) (fs : FS β), LookupInv getId st →
      LookupInv getId (buildStorage c getId vs st fs).1 ∧
      (∀ i, i ∈ (buildStorage c getId vs st fs).1.data.map getId →
        i ∈ st.data.map getId ∨ i ∈ vs.map getId) := by
  induction vs with
  | nil => exact fun st fs h => ⟨h, fun i hi => .inl hi⟩
  | cons v rest ih =>
    intro st fs h
    unfold buildStorage
    cases hadd : Storage.add_to_storage c getId st fs v with
    | error e =>
      obtain ⟨ha, hb⟩ := ih st fs h
      refine ⟨ha, fun i hi => ?_⟩
      rcases hb i hi with h' | h'
      · exact .inl h'
      · exact .inr (by simp only [List.map_cons, List.mem_cons]; right; exact h')
    | ok p =>
      obtain ⟨hi1, _, hids⟩ := add_preserves_inv c getId st fs v p.1 p.2 h
        (by rw [hadd])
      obtain ⟨ha, hb⟩ := ih p.1 p.2 hi1
      refine ⟨ha, fun i hi => ?_⟩
      rcases hb i hi with h' | h'
      · rw [hids] at h'
        rcases List.mem_append.mp h' with h'' | h''
        · exact .inl h''
        · simp only [List.mem_singleton] at h''
          exact .inr (by simp [h''])
      · exact .inr (by simp only [List.map_cons, List.mem_cons]; right; exact h')

/-- C4 (amended): after any sequence of inserts starting from a fresh
collection, a query whose trimmed form is the id of a stored record returns
Ok with a handle whose value's reported id equals the trimmed query (and
that id was indeed inserted); a query whose trimmed form matches no stored
record's id returns the ObjectNotFound error; no other outcome is
possible.  (The original claim, keyed on the raw query instead of its
trimmed form, fails: see the counterexample.) -/
theorem C4_lookup_correct (c : Codec α β) (getId : α → String)
    (dir : String) (fs : FS β) (vs : List α) (q : String) :
    match (buildStorage c getId vs (Storage.new dir) fs).1.get_by_id q with
    | .ok d => getId d.data = rustTrim q ∧ rustTrim q ∈ vs.map getId
    | .err e => e = .ObjectNotFound ∧
        rustTrim q ∉
          (buildStorage c getId vs (Storage.new dir) fs).1.data.map getId
    | .crash => False := by
  obtain ⟨hInv, hsub⟩ := buildStorage_inv c getId vs (Storage.new dir) fs rfl
  have hspec := get_by_id_spec getId _ hInv q
  cases hh : (buildStorage c getId vs (Storage.new dir) fs).1.get_by_id q with
  | ok d =>
    rw [hh] at hspec
    obtain ⟨h1, h2, _⟩ := hspec
    refine ⟨h1, ?_⟩
    have hmem : rustTrim q ∈
        (buildStorage c getId vs (Storage.new dir) fs).1.data.map getId :=
      h1 ▸ List.mem_map_of_mem getId h2
    rcases hsub _ hmem with h' | h'
    · simp [Storage.new] at h'
    · exact h'
  | err e =>
    rw [hh] at hspec
    exact hspec
  | crash =>
    rw [hh] at hspec
    exact hspec

/-- C4 counterexample: insert a single record with id "x" into a fresh
collection, then query the id " x ", which was never inserted.  The claim
requires ObjectNotFound for a never-inserted id, but get_by_id trims the
query and returns the record stored under "x". -/
theorem C4_counterexample :
    (buildStorage userCodec userGetId [ux]
        (Storage.new "data") fsEmpty).1.get_by_id " x " =
      .ok ⟨ux, "data"⟩ ∧
    (buildStorage userCodec userGetId [ux]
        (Storage.new "data") fsEmpty).1.get_by_id " x " ≠
      .err .ObjectNotFound := by decide

theorem runTrace_append (step : Nat → Nat → α → α) (enc : α → β)
    (l1 l2 : List Ev) : ∀ s, runTrace step enc (l1 ++ l2) s =
      runTrace step enc l2 (runTrace step enc l1 s) := by
  induction l1 with
  | nil => intro s; rfl
  | cons e t ih =>
    intro s
    cases e with
    | upd t2 k => exact ih _
    | per t2 k => exact ih _

theorem applyEvs_append (step : Nat → Nat → α → α) (l1 l2 : List Ev) :
    ∀ a, applyEvs step (l1 ++ l2) a = applyEvs step l2 (applyEvs step l1 a) := by
  induction l1 with
  | nil => intro a; rfl
  | cons e t ih =>
    intro a
    cases e with
    | upd t2 k => exact ih _
    | per t2 k => exact ih _

theorem runTrace_mem (step : Nat → Nat → α → α) (enc : α → β)
    (tr : List Ev) : ∀ s, (runTrace step enc tr s).mem =
      applyEvs step tr s.mem := by
  induction tr with
  | nil => intro s; rfl
  | cons e t ih =>
    intro s
    cases e with
    | upd t2 k => exact ih _
    | per t2 k => exact ih _

theorem count_upd_two (t k t2 m : Nat) :
    (([Ev.upd t2 m, Ev.per t2 m] : List Ev).count (Ev.upd t k)) =
      if t = t2 ∧ k = m then 1 else 0 := by
  rw [List.count_cons, List.count_cons, List.count_nil]
  by_cases h : t = t2 ∧ k = m
  · obtain ⟨rfl, rfl⟩ := h
    simp
  · rw [if_neg h]
    have hb1 : (Ev.upd t2 m == Ev.upd t k) = false := by
      rw [beq_eq_false_iff_ne]
      intro hcon
      injection hcon with ha hb
      exact h ⟨ha.symm, hb.symm⟩
    have hb2 : (Ev.per t2 m == Ev.upd t k) = false := by
      rw [beq_eq_false_iff_ne]
      intro hcon
      exact Ev.noConfusion hcon
    rw [hb1, hb2]
    simp

theorem count_upd_progOf (t k t2 N : Nat) :
    (progOf t2 N).count (Ev.upd t k) = if t = t2 ∧ k < N then 1 else 0 := by
  induction N with
  | zero => simp [progOf]
  | succ m ih =>
    rw [progOf, List.count_append, ih, count_upd_two]
    split_ifs <;> omega

theorem count_upd_one (t k t2 m : Nat) :
    (([Ev.upd t2 m] : List Ev).count (Ev.upd t k)) =
      if t = t2 ∧ k = m then 1 else 0 := by
  rw [List.count_cons, List.count_nil]
  by_cases h : t = t2 ∧ k = m
  · obtain ⟨rfl, rfl⟩ := h
    simp
  · rw [if_neg h]
    have hb : (Ev.upd t2 m == Ev.upd t k) = false := by
      rw [beq_eq_false_iff_ne]
      intro hcon
      injection hcon with ha hb
      exact h ⟨ha.symm, hb.symm⟩
    rw [hb]
    simp

theorem count_upd_rowEvents (t k t2 N : Nat) :
    (rowEvents t2 N).count (Ev.upd t k) = if t = t2 ∧ k < N then 1 else 0 := by
  induction N with
  | zero => simp [rowEvents]
  | succ m ih =>
    rw [rowEvents, List.count_append, ih, count_upd_one]
    split_ifs <;> omega

theorem count_upd_allUpdEvents (t k K N : Nat) :
    (allUpdEvents K N).count (Ev.upd t k) =
      if t < K ∧ k < N then 1 else 0 := by
  induction K with
  | zero => simp [allUpdEvents]
  | succ km ih =>
    rw [allUpdEvents, List.count_append, ih, count_upd_rowEvents]
    split_ifs <;> omega

theorem mem_rowEvents_isUpd (t N : Nat) :
    ∀ e ∈ rowEvents t N, e.isUpd = true := by
  induction N with
  | zero => simp [rowEvents]
  | succ m ih =>
    intro e he
    rw [rowEvents] at he
    rcases List.mem_append.mp he with h | h
    · exact ih e h
    · simp only [List.mem_singleton] at h
      subst h
      rfl

theorem mem_allUpdEvents_isUpd (K N : Nat) :
    ∀ e ∈ allUpdEvents K N, e.isUpd = true := by
  induction K with
  | zero => simp [allUpdEvents]
  | succ km ih =>
    intro e he
    rw [allUpdEvents] at he
    rcases List.mem_append.mp he with h | h
    · exact ih e h
    · exact mem_rowEvents_isUpd km N e h

theorem validTrace_props (K N : Nat) (tr : List Ev)
    (h : validTrace K N tr = true) :
    (∀ e ∈ tr, e.thread < K) ∧
    (∀ t, t < K → tr.filter (fun e => decide (e.thread = t)) = progOf t N) := by
  unfold validTrace at h
  rw [Bool.and_eq_true] at h
  refine ⟨fun e he => ?_, fun t ht => ?_⟩
  · exact of_decide_eq_true (List.all_eq_true.mp h.1 e he)
  · exact of_decide_eq_true
      (List.all_eq_true.mp h.2 t (List.mem_range.mpr ht))

theorem updEvents_perm (K N : Nat) (tr : List Ev)
    (h1 : ∀ e ∈ tr, e.thread < K)
    (h2 : ∀ t, t < K →
      tr.filter (fun e => decide (e.thread = t)) = progOf t N) :
    (tr.filter Ev.isUpd).Perm (allUpdEvents K N) := by
  refine List.perm_iff_count.mpr ?_
  intro e
  cases e with
  | upd t k =>
    rw [List.count_filter (by rfl), count_upd_allUpdEvents]
    by_cases ht : t < K
    · have hcf : (tr.filter
          (fun e => decide (e.thread = t))).count (Ev.upd t k) =
          tr.count (Ev.upd t k) := List.count_filter (by simp [Ev.thread])
      rw [← hcf, h2 t ht, count_upd_progOf]
      simp [ht]
    · have hz : tr.count (Ev.upd t k) = 0 := by
        rw [List.count_eq_zero]
        intro hmem
        have hh := h1 _ hmem
        simp [Ev.thread] at hh
        omega
      rw [hz]
      simp [ht]
  | per t k =>
    have hz1 : (tr.filter Ev.isUpd).count (Ev.per t k) = 0 := by
      rw [List.count_eq_zero]
      intro hmem
      have := List.of_mem_filter hmem
      simp [Ev.isUpd] at this
    have hz2 : (allUpdEvents K N).count (Ev.per t k) = 0 := by
      rw [List.count_eq_zero]
      intro hmem
      have := mem_allUpdEvents_isUpd K N _ hmem
      simp [Ev.isUpd] at this
    rw [hz1, hz2]

theorem getLast?_filter (p : Ev → Bool) (l : List Ev) (e : Ev)
    (hl : l.getLast? = some e) (hp : p e = true) :
    (l.filter p).getLast? = some e := by
  induction l with
  | nil => cases hl
  | cons a t ih =>
    cases t with
    | nil =>
      have he : e = a := by
        have h2 : ([a] : List Ev).getLast? = some a := rfl
        rw [h2] at hl
        exact (Option.some.inj hl).symm
      subst he
      simp [List.filter_cons, hp]
    | cons b t2 =>
      rw [List.getLast?_cons_cons] at hl
      have ihh := ih hl
      rw [List.filter_cons]
      by_cases hpa : p a = true
      · rw [if_pos hpa]
        cases hf : (b :: t2).filter p with
        | nil => rw [hf] at ihh; cases ihh
        | cons c u =>
          rw [hf] at ihh
          rw [List.getLast?_cons_cons]
          exact ihh
      · rw [if_neg hpa]
        exact ihh

theorem progOf_ne_nil (t N : Nat) (h : 0 < N) : progOf t N ≠ [] := by
  cases N with
  | zero => omega
  | succ m => simp [progOf]

theorem getLast?_progOf (t N : Nat) (h : 0 < N) :
    (progOf t N).getLast? = some (Ev.per t (N - 1)) := by
  cases N with
  | zero => omega
  | succ m =>
    rw [progOf]
    rw [show progOf t m ++ [Ev.upd t m, Ev.per t m] =
      (progOf t m ++ [Ev.upd t m]) ++ [Ev.per t m] by simp]
    rw [List.getLast?_concat]
    simp

/-- C8 (amended): under the code's lock structure the two halves of an
update — the mutation under the lock and the persist, which re-acquires the
lock — are separately atomic but may interleave with other threads' halves
(the original claim's requirement that each full read-modify-persist cycle
completes before the next begins fails, see the counterexample).
Nevertheless, for every complete execution of K threads each performing N
updates on the same shared record (all persists succeeding): the multiset of
performed mutations is exactly the K times N updates, each performed once;
the final in-memory value is the result of applying all of them in the order
their mutation halves executed; and the final persisted file contents are
the encoding of that final value — a total order with no lost updates. -/
theorem C8_no_lost_updates (step : Nat → Nat → α → α) (enc : α → β)
    (K N : Nat) (v0 : α) (tr : List Ev)
    (hK : 0 < K) (hN : 0 < N) (hv : validTrace K N tr = true) :
    (tr.filter Ev.isUpd).Perm (allUpdEvents K N) ∧
    runTrace step enc tr ⟨v0, none⟩ =
      ⟨applyEvs step tr v0, some (enc (applyEvs step tr v0))⟩ := by
  obtain ⟨h1, h2⟩ := validTrace_props K N tr hv
  refine ⟨updEvents_perm K N tr h1 h2, ?_⟩
  have hne : tr ≠ [] := by
    intro hnil
    have hf := h2 0 hK
    rw [hnil] at hf
    exact progOf_ne_nil 0 N hN (by simpa using hf.symm)
  have hth : (tr.getLast hne).thread < K := h1 _ (List.getLast_mem hne)
  have hfl : ((tr.filter (fun e =>
      decide (e.thread = (tr.getLast hne).thread))).getLast?) =
      some (tr.getLast hne) :=
    getLast?_filter _ tr _ (List.getLast?_eq_getLast tr hne) (by simp)
  rw [h2 _ hth, getLast?_progOf _ N hN] at hfl
  have hpe : tr.getLast hne = Ev.per (tr.getLast hne).thread (N - 1) :=
    (Option.some.inj hfl).symm
  have hdec : tr.dropLast ++ [tr.getLast hne] = tr :=
    List.dropLast_concat_getLast hne
  have hval : applyEvs step tr v0 = applyEvs step tr.dropLast v0 := by
    conv_lhs => rw [← hdec]
    rw [applyEvs_append, hpe]
    rfl
  have hmm : (runTrace step enc tr.dropLast (⟨v0, none⟩ : CState α β)).mem =
      applyEvs step tr v0 := by
    rw [runTrace_mem]
    exact hval.symm
  conv_lhs => rw [← hdec]
  rw [runTrace_append, hpe]
  show (⟨(runTrace step enc tr.dropLast ⟨v0, none⟩).mem,
    some (enc (runTrace step enc tr.dropLast ⟨v0, none⟩).mem)⟩ :
      CState α β) = _
  rw [hmm]

/-- Witness for C8 at the concrete interleaved two-thread execution. -/
theorem C8_no_lost_updates_witness :
    0 < 2 ∧ 0 < 1 ∧ validTrace 2 1 c8Trace = true ∧
    ((c8Trace.filter Ev.isUpd).Perm (allUpdEvents 2 1) ∧
     runTrace c8Step (fun n => n) c8Trace ⟨0, none⟩ =
       ⟨applyEvs c8Step c8Trace 0,
        some (applyEvs c8Step c8Trace 0)⟩) :=
  ⟨by decide, by decide, by decide,
   C8_no_lost_updates c8Step (fun n => n) 2 1 0 c8Trace
     (by decide) (by decide) (by decide)⟩

/-- C8 counterexample: the interleaved execution c8Trace is permitted by the
code's lock structure (it is a valid trace of 2 threads times 1 update), yet
it is not a sequence of complete read-modify-persist cycles: thread 1's
mutation runs between thread 0's mutation and thread 0's persist, so updates
to the same id are not totally ordered the way the claim states. -/
theorem C8_counterexample :
    validTrace 2 1 c8Trace = true ∧ specSerialCycles c8Trace = false := by
  decide

end Storaget
